import Mathlib

/-!
Verification of the MatrixMap repository: an Array decorated with a
key-indexed dictionary (`keyMap`) and, in one source variant, a
key-to-position dictionary (`indexMap`), kept in sync by overridden
array methods and Proxy traps.

Three source variants are embedded:
* `CM` — the plain-array `createMatrixMap` of `src/index.js`
  (keyMap only, no Proxy on element writes);
* `MX` — the `MatrixMap` class of `src/index.js` with its Proxy set /
  length / deleteProperty traps (keyMap only);
* `IX` — the first `createMatrixMap` variant of `src/unnamed/part_001`
  (keyMap plus indexMap, outer Proxy, `rebuildKeyMaps`).

Records are opaque JS values carrying an optional key field; a list slot
of `none` stands for a hole / null / undefined entry.
-/

/-- A stored record.  `key` is the value of the configured key field
(`none` when the record lacks the field); `payload` distinguishes
otherwise equal records (JS object identity). -/
structure Record where
  key : Option Nat
  payload : Nat
deriving DecidableEq, Repr

/-- JS truthiness of the key-field value, as tested by
`!newValue?.[this?.keyField]` in part_001's `updateByKey`:
`undefined` and `0` are falsy. -/
def Record.keyIsTruthy (r : Record) : Bool :=
  match r.key with
  | none => false
  | some k => k != 0

/-- Association-list model of a JS `Map` keyed by the key-field value. -/
abbrev KMap := List (Nat × Record)

/-- Association-list model of the key-to-position `Map`. -/
abbrev IMap := List (Nat × Nat)

/-- `Map.prototype.get`. -/
def mget {α : Type} (k : Nat) : List (Nat × α) → Option α
  | [] => none
  | (k', v) :: rest => if k' = k then some v else mget k rest

/-- `Map.prototype.set` (overwrite in place, else append). -/
def mset {α : Type} (k : Nat) (v : α) : List (Nat × α) → List (Nat × α)
  | [] => [(k, v)]
  | (k', v') :: rest =>
    if k' = k then (k, v) :: rest else (k', v') :: mset k v rest

/-- `Map.prototype.delete`. -/
def mdel {α : Type} (k : Nat) : List (Nat × α) → List (Nat × α)
  | [] => []
  | (k', v') :: rest =>
    if k' = k then mdel k rest else (k', v') :: mdel k rest

theorem mget_mset_self {α : Type} (k : Nat) (v : α) (l : List (Nat × α)) :
    mget k (mset k v l) = some v := by
  induction l with
  | nil => simp [mset, mget]
  | cons p rest ih =>
    obtain ⟨k', v'⟩ := p
    by_cases h : k' = k
    · simp [mset, h, mget]
    · simp [mset, h, mget, ih]

theorem mget_mset_ne {α : Type} {k' k : Nat} (v : α) (l : List (Nat × α))
    (h : k' ≠ k) : mget k (mset k' v l) = mget k l := by
  induction l with
  | nil => simp [mset, mget, h]
  | cons p rest ih =>
    obtain ⟨a, b⟩ := p
    by_cases ha : a = k'
    · subst ha; simp [mset, mget, h]
    · by_cases hk : a = k
      · subst hk; simp [mset, ha, mget]
      · simp [mset, ha, mget, hk, ih]

theorem mget_mdel_self {α : Type} (k : Nat) (l : List (Nat × α)) :
    mget k (mdel k l) = none := by
  induction l with
  | nil => simp [mdel, mget]
  | cons p rest ih =>
    obtain ⟨a, b⟩ := p
    by_cases ha : a = k
    · simp [mdel, ha, ih]
    · simp [mdel, ha, mget, ih]

theorem mget_mdel_ne {α : Type} {k' k : Nat} (l : List (Nat × α))
    (h : k' ≠ k) : mget k (mdel k' l) = mget k l := by
  induction l with
  | nil => simp [mdel]
  | cons p rest ih =>
    obtain ⟨a, b⟩ := p
    by_cases ha : a = k'
    · subst ha; simp [mdel, mget, h, ih]
    · by_cases hk : a = k
      · subst hk; simp [mdel, ha, mget]
      · simp [mdel, ha, mget, hk, ih]

/-- The shared keyMap build loop: scan the array and `set` every truthy,
keyed item (last occurrence wins).  This is both the initial build of
`createMatrixMap` in `src/index.js` (lines 33-37) and the body of
`MatrixMap._refreshKeyMap` (lines 345-353); `km` is the accumulating map
(`[]` when the map was just cleared). -/
def buildKeyMap : List (Option Record) → KMap → KMap
  | [], km => km
  | none :: rest, km => buildKeyMap rest km
  | some r :: rest, km =>
    match r.key with
    | none => buildKeyMap rest km
    | some k => buildKeyMap rest (mset k r km)

/-- State of the keyMap-only variants of `src/index.js`: the backing
array plus the key-to-record dictionary. -/
structure KState where
  items : List (Option Record)
  keyMap : KMap
deriving DecidableEq, Repr

/-- Write slot `i`; a write past the end extends the array with holes,
as a JS indexed assignment does. -/
def setSlot (items : List (Option Record)) (i : Nat) (v : Option Record) :
    List (Option Record) :=
  if i < items.length then items.set i v
  else items ++ List.replicate (i - items.length) none ++ [v]

namespace CM

/-- `createMatrixMap` of `src/index.js` (lines 11-38): copy the initial
elements unfiltered, then build the key map. -/
def createMatrixMap (init : List (Option Record)) : KState :=
  ⟨init, buildKeyMap init []⟩

/-- `getByKey` (src/index.js lines 47-52). -/
def getByKey (s : KState) (k : Nat) : Option Record :=
  mget k s.keyMap

/-- The `findIndex(item => item && item[this._keyField] === key)` scan
inside `updateByKey`. -/
def findKeyIdx (items : List (Option Record)) (k : Nat) : Option Nat :=
  items.findIdx? fun slot =>
    match slot with
    | some r => r.key == some k
    | none => false

/-- `updateByKey` of `src/index.js` (lines 61-78): if a record with the
key is found, purge the old record's key, overwrite the slot with
`newValue` (no validation of `newValue`), register `newValue`'s key if
it has one, and return `true`; otherwise return `false` unchanged. -/
def updateByKey (s : KState) (k : Nat) (v : Option Record) : KState × Bool :=
  match findKeyIdx s.items k with
  | none => (s, false)
  | some i =>
    let km1 :=
      match s.items.getD i none with
      | some r =>
        match r.key with
        | some k0 => mdel k0 s.keyMap
        | none => s.keyMap
      | none => s.keyMap
    let items1 := s.items.set i v
    let km2 :=
      match v with
      | some r =>
        match r.key with
        | some k1 => mset k1 r km1
        | none => km1
      | none => km1
    (⟨items1, km2⟩, true)

/-- `push` of `src/index.js` `createMatrixMap` (lines 83-94): append all
items, register every truthy keyed item, return the new length. -/
def push (s : KState) (l : List (Option Record)) : KState × Nat :=
  (⟨s.items ++ l, buildKeyMap l s.keyMap⟩, (s.items ++ l).length)

end CM

namespace MX

/-- The `MatrixMap` class constructor of `src/index.js` (lines 257-342):
store the elements and run `_refreshKeyMap`. -/
def create (init : List (Option Record)) : KState :=
  ⟨init, buildKeyMap init []⟩

/-- The Proxy `set` trap for a numeric index (src/index.js lines
308-322): purge the old occupant's key, perform the write (even of a
null value), then register the new value's key if it has one; the trap
reports success. -/
def setAt (s : KState) (i : Nat) (v : Option Record) : KState × Bool :=
  let km1 :=
    match s.items.getD i none with
    | some r =>
      match r.key with
      | some k0 => mdel k0 s.keyMap
      | none => s.keyMap
    | none => s.keyMap
  let items1 := setSlot s.items i v
  let km2 :=
    match v with
    | some r =>
      match r.key with
      | some k1 => mset k1 r km1
      | none => km1
    | none => km1
  (⟨items1, km2⟩, true)

/-- The purge loop of the `length` branch of the Proxy `set` trap:
delete the key of every truthy keyed discarded item. -/
def purgeKeys : List (Option Record) → KMap → KMap
  | [], km => km
  | none :: rest, km => purgeKeys rest km
  | some r :: rest, km =>
    match r.key with
    | none => purgeKeys rest km
    | some k => purgeKeys rest (mdel k km)

/-- Assignment to `length` through the Proxy `set` trap (src/index.js
lines 293-305): when shrinking, purge the keys of every discarded
position, then set the length (growing just appends holes). -/
def truncate (s : KState) (m : Nat) : KState :=
  if m < s.items.length then
    ⟨s.items.take m, purgeKeys (s.items.drop m) s.keyMap⟩
  else
    ⟨s.items ++ List.replicate (m - s.items.length) none, s.keyMap⟩

/-- The Proxy `deleteProperty` trap (src/index.js lines 329-340): purge
the key of the record at the index, then delete the slot, leaving a hole
of the same length. -/
def deleteIndex (s : KState) (i : Nat) : KState :=
  if i < s.items.length then
    match s.items.getD i none with
    | some r =>
      match r.key with
      | some k => ⟨s.items.set i none, mdel k s.keyMap⟩
      | none => ⟨s.items.set i none, s.keyMap⟩
    | none => ⟨s.items.set i none, s.keyMap⟩
  else s

end MX

namespace IX

/-- State of the first `createMatrixMap` variant of
`src/unnamed/part_001`: the backing array, the key-to-record map and the
key-to-position map. -/
structure State where
  items : List (Option Record)
  keyMap : KMap
  indexMap : IMap
deriving DecidableEq, Repr

/-- The initial build loop of part_001's `createMatrixMap` (lines
71-79): walk the elements with a separate counter `idx`; a keyed item
whose key is not yet in the index map is registered under position
`idx`, which is then incremented (so unkeyed items do not advance the
recorded position, and duplicate keys keep their first occurrence). -/
def initGo : List (Option Record) → Nat → KMap → IMap → KMap × IMap
  | [], _, km, im => (km, im)
  | none :: rest, idx, km, im => initGo rest idx km im
  | some r :: rest, idx, km, im =>
    match r.key with
    | none => initGo rest idx km im
    | some k =>
      if (mget k im).isSome then initGo rest idx km im
      else initGo rest (idx + 1) (mset k r km) (mset k idx im)

/-- part_001's `createMatrixMap` (lines 11-79): falsy initial elements
are filtered out, the rest are pushed natively, then both maps are built
by the `idx`-counter loop. -/
def createMatrixMap (init : List (Option Record)) : State :=
  let items := (init.filterMap id).map some
  let maps := initGo items 0 [] []
  ⟨items, maps.1, maps.2⟩

/-- `getByKey` (part_001 lines 89-94). -/
def getByKey (s : State) (k : Nat) : Option Record :=
  mget k s.keyMap

/-- The loop of `rebuildKeyMaps` (part_001 lines 55-70) after the two
`clear()` calls: scan positions from `start` upward, registering each
keyed item under the counter `idx` (initially `start`), which advances
only on keyed items. -/
def rebuildGo : List (Option Record) → Nat → KMap → IMap → KMap × IMap
  | [], _, km, im => (km, im)
  | none :: rest, idx, km, im => rebuildGo rest idx km im
  | some r :: rest, idx, km, im =>
    match r.key with
    | none => rebuildGo rest idx km im
    | some k => rebuildGo rest (idx + 1) (mset k r km) (mset k idx im)

/-- `rebuildKeyMaps(idx)` (part_001 lines 55-70): clear BOTH maps
entirely, then re-register only the items from position `idx` onward. -/
def rebuildKeyMaps (items : List (Option Record)) (start : Nat) :
    KMap × IMap :=
  rebuildGo (items.drop start) start [] []

/-- The map-update loop of part_001's `push` over the kept items. -/
def pushMaps : List Record → Nat → KMap → IMap → KMap × IMap
  | [], _, km, im => (km, im)
  | r :: rest, i, km, im =>
    match r.key with
    | some k => pushMaps rest (i + 1) (mset k r km) (mset k i im)
    | none => pushMaps rest (i + 1) km im

/-- `push` of part_001 (lines 167-187): keep only the truthy items that
carry the key field (`validItems`), append those, register each at its
actual final position, and return the new length. -/
def push (s : State) (l : List (Option Record)) : State × Nat :=
  let valid := l.filterMap fun slot =>
    match slot with
    | some r => if r.key.isSome then some r else none
    | none => none
  let items1 := s.items ++ valid.map some
  let maps := pushMaps valid s.items.length s.keyMap s.indexMap
  (⟨items1, maps.1, maps.2⟩, items1.length)

/-- Net effect of the outer Proxy `set` trap of part_001 (lines
349-390) for a numeric index and a non-null record value: the slot is
written; since `oldValue` is read back only AFTER the write, the entry
deleted and re-added is the new record's own key, so the previous
occupant's key is never purged. -/
def setTrap (s : State) (i : Nat) (r : Record) : State :=
  let items1 := setSlot s.items i (some r)
  match r.key with
  | some k =>
    ⟨items1, mset k r (mdel k s.keyMap), mset k i (mdel k s.indexMap)⟩
  | none => ⟨items1, s.keyMap, s.indexMap⟩

/-- The outer Proxy `set` trap for a numeric index (part_001 lines
330-390): a null/undefined value is rejected up front (`return false`)
with no state change; otherwise the write goes through. -/
def setAt (s : State) (i : Nat) (v : Option Record) : State × Bool :=
  match v with
  | none => (s, false)
  | some r => (setTrap s i r, true)

/-- `updateByKey` of part_001 (lines 132-155): a null `newValue` or one
whose key-field value is falsy leaves everything unchanged (the JS
returns `this`); otherwise, if `key` is absent from the index map the
record is pushed and both maps gain an entry for `key` at the tail,
else the slot at the recorded position is overwritten through the Proxy
trap and both maps are re-pointed at `key`.  The lookup key is never
compared with the record's own key. -/
def updateByKey (s : State) (k : Nat) (v : Option Record) : State :=
  match v with
  | none => s
  | some r =>
    if !r.keyIsTruthy then s
    else
      match mget k s.indexMap with
      | none =>
        let s1 := (push s [some r]).1
        ⟨s1.items, mset k r s1.keyMap,
          mset k (s1.items.length - 1) s1.indexMap⟩
      | some i =>
        let s1 := setTrap s i r
        ⟨s1.items, mset k r s1.keyMap, mset k i s1.indexMap⟩

/-- `splice` of part_001 (lines 231-246): perform the native splice,
delete the removed items' keys, then call `rebuildKeyMaps(start)` —
which clears both maps completely and re-registers only the positions
from `start` onward. -/
def splice (s : State) (start delCount : Nat)
    (inserts : List (Option Record)) : State × List (Option Record) :=
  let aStart := min start s.items.length
  let aDel := min delCount (s.items.length - aStart)
  let removed := (s.items.drop aStart).take aDel
  let items1 :=
    s.items.take aStart ++ inserts ++ s.items.drop (aStart + aDel)
  let maps := rebuildKeyMaps items1 start
  (⟨items1, maps.1, maps.2⟩, removed)

/-- `reverse` of part_001 (lines 319-326): reverse the array, then
`rebuildKeyMaps()` from scratch. -/
def reverse (s : State) : State :=
  let items1 := s.items.reverse
  let maps := rebuildKeyMaps items1 0
  ⟨items1, maps.1, maps.2⟩

end IX

/-- A keyed record from a (key, payload) pair, for stating theorems
about sequences of records that all carry the key field. -/
def mkRec (p : Nat × Nat) : Record :=
  ⟨some p.1, p.2⟩

/-- The slot list holding exactly the keyed records of `ps`. -/
def recsOf (ps : List (Nat × Nat)) : List (Option Record) :=
  ps.map fun p => some (mkRec p)

/-- Specification helper (spec section 8, invariant I1 last-write-wins
reading): the last record of `l` carrying key `k`, if any. -/
def lastWithKey (l : List (Option Record)) (k : Nat) : Option Record :=
  match l with
  | [] => none
  | slot :: rest =>
    match lastWithKey rest k with
    | some r => some r
    | none =>
      match slot with
      | some r => if r.key = some k then some r else none
      | none => none

/-- Executable check of invariant I1 on an `IX.State`: every position
holding a keyed record must be mapped to that record by `keyMap` and to
that exact position by `indexMap`. -/
def chkI1 (s : IX.State) : Bool :=
  s.items.enum.all fun p =>
    match p.2 with
    | none => true
    | some r =>
      match r.key with
      | none => true
      | some k =>
        decide (mget k s.keyMap = some r) &&
          decide (mget k s.indexMap = some p.1)


theorem lastWithKey_eq_none (l : List (Option Record)) (k : Nat)
    (h : ∀ r : Record, some r ∈ l → r.key ≠ some k) :
    lastWithKey l k = none := by
  induction l with
  | nil => rfl
  | cons slot rest ih =>
    have hrest : lastWithKey rest k = none :=
      ih fun r hr => h r (List.mem_cons_of_mem _ hr)
    cases slot with
    | none => simp [lastWithKey, hrest]
    | some r =>
      have : r.key ≠ some k := h r (List.mem_cons_self _ _)
      simp [lastWithKey, hrest, this]

theorem mget_buildKeyMap (l : List (Option Record)) (km : KMap) (k : Nat) :
    mget k (buildKeyMap l km) =
      match lastWithKey l k with
      | some r => some r
      | none => mget k km := by
  induction l generalizing km with
  | nil => simp [buildKeyMap, lastWithKey]
  | cons slot rest ih =>
    cases slot with
    | none =>
      cases h : lastWithKey rest k <;>
        simp [buildKeyMap, lastWithKey, ih, h]
    | some r =>
      cases hr : r.key with
      | none =>
        cases h : lastWithKey rest k <;>
          simp [buildKeyMap, lastWithKey, ih, h, hr]
      | some k' =>
        cases h : lastWithKey rest k with
        | some r'' => simp [buildKeyMap, lastWithKey, ih, h, hr]
        | none =>
          by_cases hk : k' = k
          · subst hk
            simp [buildKeyMap, lastWithKey, ih, h, hr,
              mget_mset_self]
          · simp [buildKeyMap, lastWithKey, ih, h, hr, hk,
              mget_mset_ne _ _ hk]

theorem lastWithKey_recsOf (ps : List (Nat × Nat))
    (hk : ps.Pairwise fun p q => p.1 ≠ q.1) :
    ∀ p ∈ ps, lastWithKey (recsOf ps) p.1 = some (mkRec p) := by
  induction ps with
  | nil => intro p hp; cases hp
  | cons q rest ih =>
    intro p hp
    rcases List.mem_cons.mp hp with hpq | hpr
    · subst hpq
      have hrest : lastWithKey (recsOf rest) p.1 = none := by
        apply lastWithKey_eq_none
        intro r hr hkey
        rcases List.mem_map.mp hr with ⟨q', hq', hq'eq⟩
        have : r = mkRec q' := by
          cases hq'eq; rfl
        subst this
        have hne : p.1 ≠ q'.1 := (List.pairwise_cons.mp hk).1 q' hq'
        have hq : q'.1 = p.1 := by simpa [mkRec] using hkey
        exact hne hq.symm
      show lastWithKey (some (mkRec p) :: recsOf rest) p.1 = some (mkRec p)
      simp [lastWithKey, hrest, mkRec]
    · have hres := ih (List.pairwise_cons.mp hk).2 p hpr
      show lastWithKey (some (mkRec q) :: recsOf rest) p.1 = some (mkRec p)
      simp [lastWithKey, hres]

theorem mget_buildKeyMap_recsOf (ps : List (Nat × Nat)) (km : KMap)
    (hk : ps.Pairwise fun p q => p.1 ≠ q.1) :
    ∀ p ∈ ps, mget p.1 (buildKeyMap (recsOf ps) km) = some (mkRec p) := by
  intro p hp
  rw [mget_buildKeyMap, lastWithKey_recsOf ps hk p hp]

theorem mget_purgeKeys_frame (l : List (Option Record)) (km : KMap)
    (k : Nat) (h : ∀ r : Record, some r ∈ l → r.key ≠ some k) :
    mget k (MX.purgeKeys l km) = mget k km := by
  induction l generalizing km with
  | nil => rfl
  | cons slot rest ih =>
    have hrest : ∀ r : Record, some r ∈ rest → r.key ≠ some k :=
      fun r hr => h r (List.mem_cons_of_mem _ hr)
    cases slot with
    | none => simp [MX.purgeKeys, ih _ hrest]
    | some r =>
      cases hr : r.key with
      | none => simp [MX.purgeKeys, hr, ih _ hrest]
      | some k' =>
        have hne : k' ≠ k := by
          intro he
          exact h r (List.mem_cons_self _ _) (by rw [hr, he])
        simp [MX.purgeKeys, hr, ih _ hrest, mget_mdel_ne _ hne]

theorem mget_purgeKeys_none (l : List (Option Record)) (km : KMap)
    (k : Nat) (h : mget k km = none) :
    mget k (MX.purgeKeys l km) = none := by
  induction l generalizing km with
  | nil => exact h
  | cons slot rest ih =>
    cases slot with
    | none => simp [MX.purgeKeys, ih _ h]
    | some r =>
      cases hr : r.key with
      | none => simp [MX.purgeKeys, hr, ih _ h]
      | some k' =>
        by_cases hk : k' = k
        · subst hk
          simp only [MX.purgeKeys, hr]
          exact ih _ (mget_mdel_self _ _)
        · simp only [MX.purgeKeys, hr]
          exact ih _ (by rw [mget_mdel_ne _ hk]; exact h)

theorem mget_purgeKeys_mem (qs : List (Nat × Nat)) (km : KMap) :
    ∀ p ∈ qs, mget p.1 (MX.purgeKeys (recsOf qs) km) = none := by
  induction qs generalizing km with
  | nil => intro p hp; cases hp
  | cons q rest ih =>
    intro p hp
    rcases List.mem_cons.mp hp with hpq | hpr
    · subst hpq
      simp only [recsOf, List.map_cons, MX.purgeKeys, mkRec]
      exact mget_purgeKeys_none _ _ _ (mget_mdel_self _ _)
    · simp only [recsOf, List.map_cons, MX.purgeKeys, mkRec]
      exact ih _ p hpr

theorem mget_initGo_frame (l : List (Option Record)) (idx : Nat)
    (km : KMap) (im : IMap) (k : Nat)
    (h : ∀ r : Record, some r ∈ l → r.key ≠ some k) :
    mget k (IX.initGo l idx km im).1 = mget k km := by
  induction l generalizing idx km im with
  | nil => rfl
  | cons slot rest ih =>
    have hrest : ∀ r : Record, some r ∈ rest → r.key ≠ some k :=
      fun r hr => h r (List.mem_cons_of_mem _ hr)
    cases slot with
    | none => simp [IX.initGo, ih _ _ _ hrest]
    | some r =>
      cases hr : r.key with
      | none => simp [IX.initGo, hr, ih _ _ _ hrest]
      | some k' =>
        have hne : k' ≠ k := by
          intro he
          exact h r (List.mem_cons_self _ _) (by rw [hr, he])
        by_cases hs : (mget k' im).isSome
        · simp [IX.initGo, hr, hs, ih _ _ _ hrest]
        · simp only [IX.initGo, hr]
          rw [if_neg hs, ih _ _ _ hrest, mget_mset_ne _ _ hne]

theorem mget_initGo_mem (ps : List (Nat × Nat)) (idx : Nat)
    (km : KMap) (im : IMap)
    (hk : ps.Pairwise fun p q => p.1 ≠ q.1)
    (hfresh : ∀ p ∈ ps, mget p.1 im = none) :
    ∀ p ∈ ps,
      mget p.1 (IX.initGo (recsOf ps) idx km im).1 = some (mkRec p) := by
  induction ps generalizing idx km im with
  | nil => intro p hp; cases hp
  | cons q rest ih =>
    intro p hp
    have hq : mget q.1 im = none := hfresh q (List.mem_cons_self _ _)
    have hstep : IX.initGo (recsOf (q :: rest)) idx km im
        = IX.initGo (recsOf rest) (idx + 1)
            (mset q.1 (mkRec q) km) (mset q.1 idx im) := by
      show IX.initGo (some (mkRec q) :: recsOf rest) idx km im = _
      simp [IX.initGo, mkRec, hq]
    rw [hstep]
    rcases List.mem_cons.mp hp with hpq | hpr
    · subst hpq
      have hframe : ∀ r : Record, some r ∈ recsOf rest → r.key ≠ some p.1 := by
        intro r hr hkey
        rcases List.mem_map.mp hr with ⟨q', hq', hq'eq⟩
        have : r = mkRec q' := by cases hq'eq; rfl
        subst this
        have hne : p.1 ≠ q'.1 := (List.pairwise_cons.mp hk).1 q' hq'
        have : q'.1 = p.1 := by simpa [mkRec] using hkey
        exact hne this.symm
      rw [mget_initGo_frame _ _ _ _ _ hframe, mget_mset_self]
    · apply ih _ _ _ (List.pairwise_cons.mp hk).2 _ p hpr
      intro p' hp'
      have hne : p'.1 ≠ q.1 := by
        intro he
        exact ((List.pairwise_cons.mp hk).1 p' hp') he.symm
      rw [mget_mset_ne _ _ (fun he => hne he.symm)]
      exact hfresh p' (List.mem_cons_of_mem _ hp')

theorem mget_rebuildGo_frame (l : List (Option Record)) (idx : Nat)
    (km : KMap) (im : IMap) (k : Nat)
    (h : ∀ r : Record, some r ∈ l → r.key ≠ some k) :
    mget k (IX.rebuildGo l idx km im).1 = mget k km ∧
      mget k (IX.rebuildGo l idx km im).2 = mget k im := by
  induction l generalizing idx km im with
  | nil => exact ⟨rfl, rfl⟩
  | cons slot rest ih =>
    have hrest : ∀ r : Record, some r ∈ rest → r.key ≠ some k :=
      fun r hr => h r (List.mem_cons_of_mem _ hr)
    cases slot with
    | none => simpa [IX.rebuildGo] using ih _ _ _ hrest
    | some r =>
      cases hr : r.key with
      | none => simpa [IX.rebuildGo, hr] using ih _ _ _ hrest
      | some k' =>
        have hne : k' ≠ k := by
          intro he
          exact h r (List.mem_cons_self _ _) (by rw [hr, he])
        have := ih (idx + 1) (mset k' r km) (mset k' idx im) hrest
        simp only [IX.rebuildGo, hr]
        exact ⟨by rw [this.1, mget_mset_ne _ _ hne],
          by rw [this.2, mget_mset_ne _ _ hne]⟩

theorem mget_rebuildGo_spec (qs : List (Nat × Nat)) (idx : Nat)
    (km : KMap) (im : IMap)
    (hk : qs.Pairwise fun p q => p.1 ≠ q.1) :
    ∀ (j : Nat) (hj : j < qs.length),
      mget (qs.get ⟨j, hj⟩).1 (IX.rebuildGo (recsOf qs) idx km im).1
          = some (mkRec (qs.get ⟨j, hj⟩)) ∧
        mget (qs.get ⟨j, hj⟩).1 (IX.rebuildGo (recsOf qs) idx km im).2
          = some (idx + j) := by
  induction qs generalizing idx km im with
  | nil => intro j hj; exact absurd hj (by simp)
  | cons q rest ih =>
    intro j hj
    have hstep : IX.rebuildGo (recsOf (q :: rest)) idx km im
        = IX.rebuildGo (recsOf rest) (idx + 1)
            (mset q.1 (mkRec q) km) (mset q.1 idx im) := rfl
    rw [hstep]
    cases j with
    | zero =>
      have hget : (q :: rest).get ⟨0, hj⟩ = q := rfl
      rw [hget]
      have hframe : ∀ r : Record, some r ∈ recsOf rest → r.key ≠ some q.1 := by
        intro r hr hkey
        rcases List.mem_map.mp hr with ⟨q', hq', hq'eq⟩
        have : r = mkRec q' := by cases hq'eq; rfl
        subst this
        have hne : q.1 ≠ q'.1 := (List.pairwise_cons.mp hk).1 q' hq'
        have : q'.1 = q.1 := by simpa [mkRec] using hkey
        exact hne this.symm
      have hfr := mget_rebuildGo_frame (recsOf rest) (idx + 1)
        (mset q.1 (mkRec q) km) (mset q.1 idx im) q.1 hframe
      exact ⟨by rw [hfr.1, mget_mset_self],
        by rw [hfr.2, mget_mset_self]; rfl⟩
    | succ j' =>
      have hj' : j' < rest.length := by
        simpa using Nat.lt_of_succ_lt_succ hj
      have hget : (q :: rest).get ⟨j' + 1, hj⟩ = rest.get ⟨j', hj'⟩ := rfl
      rw [hget]
      have := ih (idx + 1) (mset q.1 (mkRec q) km)
        (mset q.1 idx im) (List.pairwise_cons.mp hk).2 j' hj'
      refine ⟨this.1, ?_⟩
      rw [this.2]
      congr 1
      omega

/-- C1: the claim states that every reachable state satisfies invariant
I1 (every keyed record is mapped to itself by `keyMap` and to its
position by `indexMap`).  The part_001 construction records positions
with a separate counter that does not advance over unkeyed records, so
already the state built from `[{v:0}, {_id:1}]` — reachable by
construction alone — holds the record with key 1 at position 1 while
`indexMap` records position 0: the invariant is violated. -/
theorem c1_invariant_I1_fails_on_construction :
    chkI1 (IX.createMatrixMap [some ⟨none, 0⟩, some ⟨some 1, 1⟩]) = false ∧
    (IX.createMatrixMap [some ⟨none, 0⟩, some ⟨some 1, 1⟩]).items.getD 1 none
      = some ⟨some 1, 1⟩ ∧
    IX.getByKey (IX.createMatrixMap [some ⟨none, 0⟩, some ⟨some 1, 1⟩]) 1
      = some ⟨some 1, 1⟩ ∧
    mget 1 (IX.createMatrixMap [some ⟨none, 0⟩, some ⟨some 1, 1⟩]).indexMap
      = some 0 := by
  decide

/-- C2 counterexample: in the `createMatrixMap` variant of
`src/index.js`, `updateByKey(5, record-without-key-field)` on a state
holding a record keyed 5 returns `true` (a success), overwrites the
slot, and drops the key-5 dictionary entry — the call neither fails nor
leaves the sequence and dictionary unchanged. -/
theorem c2_counterexample_updateByKey_keyless_mutates :
    (CM.updateByKey (CM.createMatrixMap [some ⟨some 5, 0⟩]) 5
        (some ⟨none, 1⟩)).2 = true ∧
    (CM.updateByKey (CM.createMatrixMap [some ⟨some 5, 0⟩]) 5
        (some ⟨none, 1⟩)).1.items
      ≠ (CM.createMatrixMap [some ⟨some 5, 0⟩]).items ∧
    (CM.updateByKey (CM.createMatrixMap [some ⟨some 5, 0⟩]) 5
        (some ⟨none, 1⟩)).1.keyMap
      ≠ (CM.createMatrixMap [some ⟨some 5, 0⟩]).keyMap := by
  decide

/-- C2 (amended): in the part_001 variant, `updateByKey` with a null
`newRecord`, or one whose key-field value is falsy (absent or `0`),
leaves the items sequence and both dictionaries exactly unchanged; the
index.js variant instead overwrites in place and reports success, and
neither variant rejects a `newRecord` whose extracted key differs from
the lookup key. -/
theorem c2_updateByKey_falsy_key_unchanged (s : IX.State) (k : Nat) :
    IX.updateByKey s k none = s ∧
    ∀ r : Record, r.keyIsTruthy = false → IX.updateByKey s k (some r) = s := by
  refine ⟨rfl, ?_⟩
  intro r h
  simp [IX.updateByKey, h]

theorem c2_updateByKey_falsy_key_unchanged_witness :
    Record.keyIsTruthy ⟨none, 3⟩ = false ∧
    IX.updateByKey (IX.createMatrixMap [some ⟨some 5, 0⟩]) 5 (some ⟨none, 3⟩)
      = IX.createMatrixMap [some ⟨some 5, 0⟩] :=
  ⟨by decide,
    (c2_updateByKey_falsy_key_unchanged
      (IX.createMatrixMap [some ⟨some 5, 0⟩]) 5).2 ⟨none, 3⟩ (by decide)⟩

/-- C3 counterexample: in the `createMatrixMap` variant of
`src/index.js`, `updateByKey(7, {_id:7})` on a state where key 7 is not
indexed returns `false` and appends nothing — there is no upsert, and
the dictionary gains no entry for 7. -/
theorem c3_counterexample_no_upsert_indexjs :
    (CM.updateByKey (CM.createMatrixMap []) 7 (some ⟨some 7, 1⟩)).2 = false ∧
    (CM.updateByKey (CM.createMatrixMap []) 7 (some ⟨some 7, 1⟩)).1.items = [] ∧
    CM.getByKey (CM.updateByKey (CM.createMatrixMap []) 7
      (some ⟨some 7, 1⟩)).1 7 = none := by
  decide

/-- C3 (amended): only the part_001 variant upserts, and only for a
record with a truthy key field.  If `k` is not in the position
dictionary, the record is appended at the tail and both dictionaries
gain an entry for `k` at the new tail position; if `k` is recorded at
position `i` (in range), the slot at `i` is overwritten and both
dictionaries point `k` at the same position `i`.  The index.js variant
returns `false` without appending. -/
theorem c3_updateByKey_upsert_part001 (s : IX.State) (k : Nat) (r : Record)
    (hk : r.key = some k) (hk0 : k ≠ 0) :
    (mget k s.indexMap = none →
      (IX.updateByKey s k (some r)).items = s.items ++ [some r] ∧
      mget k (IX.updateByKey s k (some r)).keyMap = some r ∧
      mget k (IX.updateByKey s k (some r)).indexMap
        = some s.items.length) ∧
    (∀ i : Nat, mget k s.indexMap = some i → i < s.items.length →
      (IX.updateByKey s k (some r)).items = s.items.set i (some r) ∧
      mget k (IX.updateByKey s k (some r)).keyMap = some r ∧
      mget k (IX.updateByKey s k (some r)).indexMap = some i) := by
  have htruthy : r.keyIsTruthy = true := by
    simp [Record.keyIsTruthy, hk]
    exact hk0
  constructor
  · intro hnone
    simp only [IX.updateByKey, htruthy, Bool.not_true, Bool.false_eq_true,
      if_false, hnone]
    refine ⟨?_, ?_, ?_⟩
    · simp [IX.push, hk]
    · simp [IX.push, IX.pushMaps, hk, mget_mset_self]
    · simp [IX.push, IX.pushMaps, hk, mget_mset_self]
  · intro i hi hilt
    simp only [IX.updateByKey, htruthy, Bool.not_true, Bool.false_eq_true,
      if_false, hi]
    refine ⟨?_, ?_, ?_⟩
    · simp [IX.setTrap, hk, setSlot, hilt]
    · simp [IX.setTrap, hk, mget_mset_self]
    · simp [IX.setTrap, hk, mget_mset_self]

theorem c3_updateByKey_upsert_part001_witness :
    (⟨some 7, 1⟩ : Record).key = some 7 ∧ (7 : Nat) ≠ 0 ∧
    mget 7 (IX.createMatrixMap []).indexMap = none ∧
    ((IX.updateByKey (IX.createMatrixMap []) 7 (some ⟨some 7, 1⟩)).items
        = (IX.createMatrixMap []).items ++ [some ⟨some 7, 1⟩] ∧
      mget 7 (IX.updateByKey (IX.createMatrixMap []) 7
          (some ⟨some 7, 1⟩)).keyMap = some ⟨some 7, 1⟩ ∧
      mget 7 (IX.updateByKey (IX.createMatrixMap []) 7
          (some ⟨some 7, 1⟩)).indexMap
        = some (IX.createMatrixMap []).items.length) :=
  ⟨rfl, by decide, rfl,
    (c3_updateByKey_upsert_part001 (IX.createMatrixMap []) 7 ⟨some 7, 1⟩
      rfl (by decide)).1 rfl⟩

/-- C4 counterexample: in the part_001 variant, `push` filters its
arguments down to the records that carry the key field, so a record
lacking it is NOT appended (it occupies no position): pushing one such
record onto the empty map leaves `items` empty and returns 0, not 1. -/
theorem c4_counterexample_push_drops_unkeyed :
    (IX.push (IX.createMatrixMap []) [some ⟨none, 5⟩]).1.items = [] ∧
    (IX.push (IX.createMatrixMap []) [some ⟨none, 5⟩]).2 = 0 := by
  decide

/-- C4 (amended): in the `createMatrixMap` variant of `src/index.js`,
`push` appends every argument (keyed or not), returns the new length,
and updates the single key dictionary so that each key maps to the last
pushed record carrying it (records lacking the key field contribute no
entry); the part_001 variant instead silently discards unkeyed
records before appending. -/
theorem c4_push_appends_all_indexjs (s : KState) (l : List (Option Record)) :
    (CM.push s l).1.items = s.items ++ l ∧
    (CM.push s l).2 = s.items.length + l.length ∧
    ∀ k : Nat, CM.getByKey (CM.push s l).1 k =
      match lastWithKey l k with
      | some r => some r
      | none => CM.getByKey s k := by
  refine ⟨rfl, by simp [CM.push], ?_⟩
  intro k
  exact mget_buildKeyMap l s.keyMap k

/-- C5 counterexample: the part_001 construction skips a record whose
key is already indexed, so with two records keyed 1 the dictionary
keeps the FIRST occurrence, not the latest. -/
theorem c5_counterexample_first_wins_part001 :
    IX.getByKey (IX.createMatrixMap
        [some ⟨some 1, 10⟩, some ⟨some 1, 20⟩]) 1 = some ⟨some 1, 10⟩ ∧
    IX.getByKey (IX.createMatrixMap
        [some ⟨some 1, 10⟩, some ⟨some 1, 20⟩]) 1 ≠ some ⟨some 1, 20⟩ := by
  decide

/-- C5 (amended): last-write-wins duplicate resolution holds in the
`createMatrixMap` variant of `src/index.js` — both at construction
(the key dictionary maps each key to the last initial record carrying
it) and under `push` — but the part_001 variant's construction keeps
the FIRST occurrence of a duplicated key. -/
theorem c5_construction_last_wins_indexjs (l : List (Option Record)) (k : Nat) :
    CM.getByKey (CM.createMatrixMap l) k = lastWithKey l k ∧
    ∀ s : KState, CM.getByKey (CM.push s l).1 k =
      match lastWithKey l k with
      | some r => some r
      | none => CM.getByKey s k := by
  constructor
  · show mget k (buildKeyMap l []) = _
    rw [mget_buildKeyMap]
    cases lastWithKey l k <;> rfl
  · intro s
    exact mget_buildKeyMap l s.keyMap k

/-- C6 counterexample: the `MatrixMap` class trap of `src/index.js`
accepts a null positional assignment: it purges the old occupant's key
entry, stores the hole, and reports success — the sequence and the
dictionary both change. -/
theorem c6_counterexample_setAt_stores_null_indexjs :
    (MX.setAt (MX.create [some ⟨some 1, 0⟩]) 0 none).2 = true ∧
    (MX.setAt (MX.create [some ⟨some 1, 0⟩]) 0 none).1.items = [none] ∧
    (MX.setAt (MX.create [some ⟨some 1, 0⟩]) 0 none).1.items
      ≠ (MX.create [some ⟨some 1, 0⟩]).items ∧
    mget 1 (MX.setAt (MX.create [some ⟨some 1, 0⟩]) 0 none).1.keyMap
      = none := by
  decide

/-- C6 (amended): only the part_001 variant rejects a null/absent
positional assignment, and it does so up front: the trap returns
`false` and the items sequence and both dictionaries are exactly as
before; the `MatrixMap` class of `src/index.js` instead stores the
hole and purges the old occupant's key entry. -/
theorem c6_setAt_rejects_null_part001 (s : IX.State) (i : Nat) :
    (IX.setAt s i none).1.items = s.items ∧
    (IX.setAt s i none).1.keyMap = s.keyMap ∧
    (IX.setAt s i none).1.indexMap = s.indexMap ∧
    (IX.setAt s i none).2 = false :=
  ⟨rfl, rfl, rfl, rfl⟩

theorem recsOf_take (ps : List (Nat × Nat)) (m : Nat) :
    (recsOf ps).take m = recsOf (ps.take m) :=
  (List.map_take _ _ _).symm

theorem recsOf_drop (ps : List (Nat × Nat)) (m : Nat) :
    (recsOf ps).drop m = recsOf (ps.drop m) :=
  (List.map_drop _ _ _).symm

theorem recsOf_length (ps : List (Nat × Nat)) :
    (recsOf ps).length = ps.length :=
  List.length_map _ _

theorem recsOf_mem_key (ps : List (Nat × Nat)) (r : Record)
    (hr : some r ∈ recsOf ps) : ∃ q ∈ ps, r = mkRec q := by
  rcases List.mem_map.mp hr with ⟨q, hq, hqe⟩
  exact ⟨q, hq, by cases hqe; rfl⟩

theorem recsOf_getD (ps : List (Nat × Nat)) (i : Nat) (hi : i < ps.length) :
    (recsOf ps).getD i none = some (mkRec (ps.get ⟨i, hi⟩)) := by
  induction ps generalizing i with
  | nil => cases hi
  | cons p rest ih =>
    cases i with
    | zero => rfl
    | succ i' =>
      have hi' : i' < rest.length := Nat.lt_of_succ_lt_succ hi
      simpa [recsOf, List.getD] using ih i' hi'

/-- C7 counterexample: when a discarded record shares its key with a
retained one, the `length`-shrink purge of the `MatrixMap` class also
kills the retained record's dictionary entry: truncating
`[{_id:1,a},{_id:1,b}]` to length 1 keeps the key-1 record at position
0 but `getByKey(1)` becomes absent. -/
theorem c7_counterexample_truncate_drops_retained_key :
    (MX.truncate (MX.create [some ⟨some 1, 10⟩, some ⟨some 1, 20⟩]) 1).items
      = [some ⟨some 1, 10⟩] ∧
    mget 1 (MX.truncate (MX.create
      [some ⟨some 1, 10⟩, some ⟨some 1, 20⟩]) 1).keyMap = none := by
  decide

/-- C7 (amended): provided the keyed records have pairwise distinct
keys (so no discarded record shares a key with a retained one),
truncating a freshly built `MatrixMap` of length `n` to `m < n` keeps
exactly the first `m` records, makes lookup absent for the key of every
discarded record, and still resolves the key of every retained record
to that record. -/
theorem c7_truncate_purges_discarded (ps : List (Nat × Nat)) (m : Nat)
    (hk : ps.Pairwise fun p q => p.1 ≠ q.1) (hm : m < ps.length) :
    (MX.truncate (MX.create (recsOf ps)) m).items = recsOf (ps.take m) ∧
    (∀ p ∈ ps.drop m,
      mget p.1 (MX.truncate (MX.create (recsOf ps)) m).keyMap = none) ∧
    (∀ p ∈ ps.take m,
      mget p.1 (MX.truncate (MX.create (recsOf ps)) m).keyMap
        = some (mkRec p)) := by
  have hlt : m < (recsOf ps).length := by rw [recsOf_length]; exact hm
  have hbranch : MX.truncate (MX.create (recsOf ps)) m =
      ⟨recsOf (ps.take m),
        MX.purgeKeys (recsOf (ps.drop m)) (buildKeyMap (recsOf ps) [])⟩ := by
    simp only [MX.truncate, MX.create, hlt, if_pos, recsOf_take, recsOf_drop]
  rw [hbranch]
  refine ⟨rfl, ?_, ?_⟩
  · intro p hp
    exact mget_purgeKeys_mem (ps.drop m) _ p hp
  · intro p hp
    have hframe : ∀ r : Record,
        some r ∈ recsOf (ps.drop m) → r.key ≠ some p.1 := by
      intro r hr hkey
      rcases recsOf_mem_key _ _ hr with ⟨q, hq, hqe⟩
      subst hqe
      have hq1 : q.1 = p.1 := by simpa [mkRec] using hkey
      have hpair : ∀ a ∈ ps.take m, ∀ b ∈ ps.drop m, a.1 ≠ b.1 := by
        have h2 : (ps.take m ++ ps.drop m).Pairwise
            (fun p q => p.1 ≠ q.1) := by
          rw [List.take_append_drop]; exact hk
        exact (List.pairwise_append.mp h2).2.2
      exact hpair p hp q hq hq1.symm
    rw [mget_purgeKeys_frame _ _ _ hframe]
    exact mget_buildKeyMap_recsOf ps [] hk p (List.take_subset m ps hp)

theorem c7_truncate_purges_discarded_witness :
    ([((0:Nat),(0:Nat)), (1,1), (2,2), (3,3), (4,4)] : List (Nat × Nat)).Pairwise
      (fun p q => p.1 ≠ q.1) ∧
    (2:Nat) < 5 ∧
    mget 2 (MX.truncate (MX.create
      (recsOf [(0,0),(1,1),(2,2),(3,3),(4,4)])) 2).keyMap = none ∧
    mget 3 (MX.truncate (MX.create
      (recsOf [(0,0),(1,1),(2,2),(3,3),(4,4)])) 2).keyMap = none ∧
    mget 4 (MX.truncate (MX.create
      (recsOf [(0,0),(1,1),(2,2),(3,3),(4,4)])) 2).keyMap = none ∧
    mget 0 (MX.truncate (MX.create
      (recsOf [(0,0),(1,1),(2,2),(3,3),(4,4)])) 2).keyMap
      = some (mkRec (0, 0)) ∧
    mget 1 (MX.truncate (MX.create
      (recsOf [(0,0),(1,1),(2,2),(3,3),(4,4)])) 2).keyMap
      = some (mkRec (1, 1)) := by
  have h := c7_truncate_purges_discarded [(0,0),(1,1),(2,2),(3,3),(4,4)] 2
    (by decide) (by decide)
  refine ⟨by decide, by decide, ?_, ?_, ?_, ?_, ?_⟩
  · exact h.2.1 (2, 2) (by decide)
  · exact h.2.1 (3, 3) (by decide)
  · exact h.2.1 (4, 4) (by decide)
  · exact h.2.2 (0, 0) (by decide)
  · exact h.2.2 (1, 1) (by decide)

/-- C10 counterexample: with a duplicated key, deleting position 0
through the `deleteProperty` trap removes the single shared dictionary
entry, so the record still present at position 1 loses its entry —
other positions do NOT all retain their dictionary entries. -/
theorem c10_counterexample_delete_shared_key :
    (MX.deleteIndex (MX.create
        [some ⟨some 1, 10⟩, some ⟨some 1, 20⟩]) 0).items
      = [none, some ⟨some 1, 20⟩] ∧
    mget 1 (MX.deleteIndex (MX.create
        [some ⟨some 1, 10⟩, some ⟨some 1, 20⟩]) 0).keyMap = none := by
  decide

/-- C10 (amended): provided keys are pairwise distinct, deleting
position `i` of a freshly built `MatrixMap` through the
`deleteProperty` trap leaves a hole at `i` without shifting anything
(the length is unchanged), removes exactly the key entry of the record
that was at `i`, and every other position retains both its record and
its dictionary entry. -/
theorem c10_delete_trap_frame (ps : List (Nat × Nat))
    (hk : ps.Pairwise fun p q => p.1 ≠ q.1) (i : Nat) (hi : i < ps.length) :
    (MX.deleteIndex (MX.create (recsOf ps)) i).items
      = (recsOf ps).set i none ∧
    (MX.deleteIndex (MX.create (recsOf ps)) i).items.length = ps.length ∧
    mget (ps.get ⟨i, hi⟩).1
      (MX.deleteIndex (MX.create (recsOf ps)) i).keyMap = none ∧
    ∀ (j : Nat) (hj : j < ps.length), j ≠ i →
      mget (ps.get ⟨j, hj⟩).1
          (MX.deleteIndex (MX.create (recsOf ps)) i).keyMap
        = some (mkRec (ps.get ⟨j, hj⟩)) := by
  have hlt : i < (recsOf ps).length := by rw [recsOf_length]; exact hi
  have hbranch : MX.deleteIndex (MX.create (recsOf ps)) i =
      ⟨(recsOf ps).set i none,
        mdel (ps.get ⟨i, hi⟩).1 (buildKeyMap (recsOf ps) [])⟩ := by
    simp only [MX.deleteIndex, MX.create, hlt, if_pos,
      recsOf_getD ps i hi, mkRec]
  rw [hbranch]
  refine ⟨rfl, by simp [recsOf_length], mget_mdel_self _ _, ?_⟩
  intro j hj hne
  have hkey : (ps.get ⟨j, hj⟩).1 ≠ (ps.get ⟨i, hi⟩).1 := by
    have hget := List.pairwise_iff_get.mp hk
    rcases Nat.lt_or_ge j i with hlt' | hge
    · exact fun he => (hget ⟨j, hj⟩ ⟨i, hi⟩ hlt') he
    · have hlt'' : i < j := Nat.lt_of_le_of_ne hge (fun he => hne he.symm)
      exact fun he => (hget ⟨i, hi⟩ ⟨j, hj⟩ hlt'') he.symm
  rw [mget_mdel_ne _ (fun he => hkey he.symm)]
  exact mget_buildKeyMap_recsOf ps [] hk _ (ps.get_mem j hj)

theorem c10_delete_trap_frame_witness :
    ([((1:Nat),(10:Nat)), (2,20)] : List (Nat × Nat)).Pairwise
      (fun p q => p.1 ≠ q.1) ∧
    (0:Nat) < 2 ∧
    mget 1 (MX.deleteIndex (MX.create (recsOf [(1,10),(2,20)])) 0).keyMap
      = none ∧
    mget 2 (MX.deleteIndex (MX.create (recsOf [(1,10),(2,20)])) 0).keyMap
      = some (mkRec (2, 20)) ∧
    (MX.deleteIndex (MX.create (recsOf [(1,10),(2,20)])) 0).items.length
      = 2 := by
  have h := c10_delete_trap_frame [(1,10),(2,20)] (by decide) 0 (by decide)
  exact ⟨by decide, by decide, h.2.2.1, h.2.2.2 1 (by decide) (by decide),
    h.2.1⟩

theorem recsOf_filterMap_id (ps : List (Nat × Nat)) :
    ((recsOf ps).filterMap id).map some = recsOf ps := by
  induction ps with
  | nil => rfl
  | cons p rest ih =>
    show ((some (mkRec p) :: recsOf rest).filterMap id).map some
        = some (mkRec p) :: recsOf rest
    rw [List.filterMap_cons]
    simp only [id_eq]
    rw [List.map_cons, ih]

theorem createMatrixMap_recsOf (ps : List (Nat × Nat)) :
    IX.createMatrixMap (recsOf ps) =
      ⟨recsOf ps, (IX.initGo (recsOf ps) 0 [] []).1,
        (IX.initGo (recsOf ps) 0 [] []).2⟩ := by
  simp only [IX.createMatrixMap, recsOf_filterMap_id]

/-- C8 counterexample: after `reverse` in the part_001 variant, the
full rebuild records positions using a counter that skips unkeyed
records, so on `[{_id:1}, {no-key}]` the keyed record ends up at
position 1 of the reversed array while the rebuilt position dictionary
records 0 for its key. -/
theorem c8_counterexample_reverse_position_stale :
    (IX.reverse (IX.createMatrixMap
        [some ⟨some 1, 1⟩, some ⟨none, 0⟩])).items.getD 1 none
      = some ⟨some 1, 1⟩ ∧
    mget 1 (IX.reverse (IX.createMatrixMap
        [some ⟨some 1, 1⟩, some ⟨none, 0⟩])).indexMap ≠ some 1 ∧
    mget 1 (IX.reverse (IX.createMatrixMap
        [some ⟨some 1, 1⟩, some ⟨none, 0⟩])).indexMap = some 0 := by
  decide

/-- C8 (amended): provided every record carries the key field and keys
are pairwise distinct, `reverse` on a freshly built part_001 map yields
exactly the reversed record sequence, and for the new position `j` of
each record the rebuilt key dictionary maps its key to that same record
(so `getByKey` agrees with the pre-reorder lookup) and the rebuilt
position dictionary records exactly `j`; with unkeyed records present
the rebuilt positions are compacted counters instead (see the
counterexample), and `sort` runs the identical rebuild. -/
theorem c8_reverse_allkeyed_consistent (ps : List (Nat × Nat))
    (hk : ps.Pairwise fun p q => p.1 ≠ q.1) :
    (IX.reverse (IX.createMatrixMap (recsOf ps))).items
      = (IX.createMatrixMap (recsOf ps)).items.reverse ∧
    ∀ (j : Nat) (hj : j < ps.reverse.length),
      mget (ps.reverse.get ⟨j, hj⟩).1
          (IX.reverse (IX.createMatrixMap (recsOf ps))).keyMap
        = some (mkRec (ps.reverse.get ⟨j, hj⟩)) ∧
      mget (ps.reverse.get ⟨j, hj⟩).1
          (IX.reverse (IX.createMatrixMap (recsOf ps))).indexMap
        = some j ∧
      IX.getByKey (IX.createMatrixMap (recsOf ps))
          (ps.reverse.get ⟨j, hj⟩).1
        = some (mkRec (ps.reverse.get ⟨j, hj⟩)) := by
  have hcreate := createMatrixMap_recsOf ps
  have hrevitems : (recsOf ps).reverse = recsOf ps.reverse :=
    (List.map_reverse _ _).symm
  have hrev : IX.reverse (IX.createMatrixMap (recsOf ps)) =
      ⟨recsOf ps.reverse,
        (IX.rebuildGo (recsOf ps.reverse) 0 [] []).1,
        (IX.rebuildGo (recsOf ps.reverse) 0 [] []).2⟩ := by
    rw [hcreate]
    simp only [IX.reverse, IX.rebuildKeyMaps, hrevitems, List.drop_zero]
  have hkrev : ps.reverse.Pairwise fun p q => p.1 ≠ q.1 :=
    List.pairwise_reverse.mpr (hk.imp fun h => h.symm)
  constructor
  · rw [hrev, hcreate]
    exact hrevitems.symm
  · intro j hj
    have hspec := mget_rebuildGo_spec ps.reverse 0 [] [] hkrev j hj
    refine ⟨?_, ?_, ?_⟩
    · rw [hrev]
      exact hspec.1
    · rw [hrev]
      have h2 := hspec.2
      rwa [Nat.zero_add] at h2
    · have hmem : ps.reverse.get ⟨j, hj⟩ ∈ ps :=
        List.mem_reverse.mp (List.get_mem _ _ _)
      rw [hcreate]
      show mget (ps.reverse.get ⟨j, hj⟩).1
        (IX.initGo (recsOf ps) 0 [] []).1 = _
      exact mget_initGo_mem ps 0 [] [] hk (fun p hp => rfl) _ hmem

theorem c8_reverse_allkeyed_consistent_witness :
    ([((1:Nat),(1:Nat)), (2,2)] : List (Nat × Nat)).Pairwise
      (fun p q => p.1 ≠ q.1) ∧
    (IX.reverse (IX.createMatrixMap (recsOf [(1,1),(2,2)]))).items
      = (IX.createMatrixMap (recsOf [(1,1),(2,2)])).items.reverse ∧
    mget 1 (IX.reverse (IX.createMatrixMap
        (recsOf [(1,1),(2,2)]))).keyMap = some (mkRec (1, 1)) ∧
    mget 1 (IX.reverse (IX.createMatrixMap
        (recsOf [(1,1),(2,2)]))).indexMap = some 1 ∧
    IX.getByKey (IX.createMatrixMap (recsOf [(1,1),(2,2)])) 1
      = some (mkRec (1, 1)) := by
  have h := c8_reverse_allkeyed_consistent [(1,1),(2,2)] (by decide)
  have h1 := h.2 1 (by decide)
  exact ⟨by decide, h.1, h1.1, h1.2.1, h1.2.2⟩

/-- C9: the claim matches the spec's own splice example, but part_001's
`splice` finishes with `rebuildKeyMaps(start)`, which clears BOTH
dictionaries completely and re-registers only positions `start` and
later.  On `[{id:1},{id:2},{id:3}]`, `splice(1,1,{id:9})` removes and
inserts correctly, yet the entry of the untouched record at position 0
is erased: `getByKey(1)` becomes absent, contradicting the claim that
entries for positions before `start` are untouched (and the invariant
the spec says splice restores). -/
theorem c9_splice_erases_prefix_entries :
    (IX.splice (IX.createMatrixMap
        [some ⟨some 1, 1⟩, some ⟨some 2, 2⟩, some ⟨some 3, 3⟩])
        1 1 [some ⟨some 9, 9⟩]).1.items
      = [some ⟨some 1, 1⟩, some ⟨some 9, 9⟩, some ⟨some 3, 3⟩] ∧
    (IX.splice (IX.createMatrixMap
        [some ⟨some 1, 1⟩, some ⟨some 2, 2⟩, some ⟨some 3, 3⟩])
        1 1 [some ⟨some 9, 9⟩]).2 = [some ⟨some 2, 2⟩] ∧
    IX.getByKey (IX.splice (IX.createMatrixMap
        [some ⟨some 1, 1⟩, some ⟨some 2, 2⟩, some ⟨some 3, 3⟩])
        1 1 [some ⟨some 9, 9⟩]).1 2 = none ∧
    IX.getByKey (IX.splice (IX.createMatrixMap
        [some ⟨some 1, 1⟩, some ⟨some 2, 2⟩, some ⟨some 3, 3⟩])
        1 1 [some ⟨some 9, 9⟩]).1 9 = some ⟨some 9, 9⟩ ∧
    mget 9 (IX.splice (IX.createMatrixMap
        [some ⟨some 1, 1⟩, some ⟨some 2, 2⟩, some ⟨some 3, 3⟩])
        1 1 [some ⟨some 9, 9⟩]).1.indexMap = some 1 ∧
    mget 3 (IX.splice (IX.createMatrixMap
        [some ⟨some 1, 1⟩, some ⟨some 2, 2⟩, some ⟨some 3, 3⟩])
        1 1 [some ⟨some 9, 9⟩]).1.indexMap = some 2 ∧
    IX.getByKey (IX.createMatrixMap
        [some ⟨some 1, 1⟩, some ⟨some 2, 2⟩, some ⟨some 3, 3⟩]) 1
      = some ⟨some 1, 1⟩ ∧
    IX.getByKey (IX.splice (IX.createMatrixMap
        [some ⟨some 1, 1⟩, some ⟨some 2, 2⟩, some ⟨some 3, 3⟩])
        1 1 [some ⟨some 9, 9⟩]).1 1 = none ∧
    mget 1 (IX.splice (IX.createMatrixMap
        [some ⟨some 1, 1⟩, some ⟨some 2, 2⟩, some ⟨some 3, 3⟩])
        1 1 [some ⟨some 9, 9⟩]).1.indexMap = none := by
  decide
